import Mathlib

/-!
Verification of the org-social-live-preview core (src/app.py):
the feed-document parser (`OrgSocialParser`), the content renderer
(`PreviewGenerator._format_content`), the permalink codec
(`parse_post_url`) and the timestamp formatter
(`PreviewGenerator._format_timestamp`).

Strings are modelled as `List Char`.  The Python regular expressions are
embedded as specialised matchers that reproduce the backtracking
semantics (greedy and lazy quantifiers, `MULTILINE` anchors, `DOTALL`,
`IGNORECASE`, fixed-width negative lookbehind) of each concrete pattern
used by the source.  The external org-mode-to-HTML conversion capability
(`orgpython.to_html`) is a parameter `conv : List Char → Option (List
Char)`; `none` models the call raising.
-/

namespace OrgSocial

/-- Coerce a Lean string literal to the `List Char` representation. -/
def S (s : String) : List Char := s.data

/-- Python whitespace (`str.strip`, regex `\s`), ASCII subset. -/
def isPyWs (c : Char) : Bool :=
  c = ' ' || c = '\t' || c = '\n' || c = '\r' || c = '\x0b' || c = '\x0c'

/-- Scanning loop of Python `str.replace` for a non-empty pattern; the
fuel only needs to dominate the number of scanning steps, each of which
consumes at least one character. -/
def pyReplaceGo (pat rep : List Char) : Nat → List Char → List Char
  | 0, s => s
  | _ + 1, [] => []
  | fuel + 1, c :: rest =>
    if pat.isPrefixOf (c :: rest) then
      rep ++ pyReplaceGo pat rep fuel ((c :: rest).drop pat.length)
    else
      c :: pyReplaceGo pat rep fuel rest

/-- Python `str.replace`: replace every non-overlapping occurrence of
`pat` in `s` by `rep`, scanning left to right.  (The sources only ever
call it with a non-empty `pat`; for `pat = []` we return `s`.) -/
def pyReplace (s pat rep : List Char) : List Char :=
  match pat with
  | [] => s
  | _ :: _ => pyReplaceGo pat rep s.length s

/-- Python `str.strip()`. -/
def pyStrip (s : List Char) : List Char :=
  ((s.dropWhile isPyWs).reverse.dropWhile isPyWs).reverse

/-- A Python dict from property keys to values (insertion ordered). -/
abbrev Dict := List (List Char × List Char)

/-- Python dict assignment `d[k] = v`: overwrite in place or append. -/
def dictSet (d : Dict) (k v : List Char) : Dict :=
  if d.any (fun p => p.1 == k) then
    d.map (fun p => if p.1 == k then (k, v) else p)
  else
    d ++ [(k, v)]

/-- Python `d.get(k)`. -/
def dictGet (d : Dict) (k : List Char) : Option (List Char) :=
  (d.find? (fun p => p.1 == k)).map (fun p => p.2)

/-!
### Parser regexes (`OrgSocialParser._extract_posts`, `_parse_post_block`)
-/

/-- Greedy `\s*$` (with `re.MULTILINE`): consume as much whitespace as
possible such that the position reached is an end of line (end of string
or directly before a `'\n'`).  Returns the suffix at the match end, or
`none` when no end of line is reachable through whitespace. -/
def wsEolSearch : List Char → Option (List Char)
  | [] => some []
  | c :: r =>
    if c = '\n' then
      match wsEolSearch r with
      | some u => some u
      | none => some (c :: r)
    else if isPyWs c then wsEolSearch r
    else none

/-- Match of `^\*\s+Posts\s*$` (re.MULTILINE) at the current position
(which the caller guarantees to be a line start).  Returns the suffix
after the match end. -/
def matchHeader : List Char → Option (List Char)
  | [] => none
  | c :: r =>
    if c = '*' then
      let ws := r.takeWhile isPyWs
      if ws = [] then none
      else
        let after := r.drop ws.length
        if (S "Posts").isPrefixOf after then wsEolSearch (after.drop 5) else none
    else none

/-- `re.search` of the Posts-section header pattern: try each line start
from left to right. -/
def findHeaderGo : List Char → Bool → Option (List Char)
  | [], _ => none
  | c :: r, atLS =>
    match (if atLS then matchHeader (c :: r) else none) with
    | some u => some u
    | none => findHeaderGo r (c = '\n')

/-- `re.search(r"^\*\s+Posts\s*$", content, re.MULTILINE)`; result is
`content[match.end():]`. -/
def findHeader (t : List Char) : Option (List Char) := findHeaderGo t true

/-- Match of `^(\*\*)\s*$` at a line start; returns the number of
characters consumed. -/
def matchBoundary : List Char → Option Nat
  | '*' :: '*' :: r => (wsEolSearch r).map (fun u => 2 + (r.length - u.length))
  | _ => none

/-- `re.finditer(r"^(\*\*)\s*$", posts_content, re.MULTILINE)`: the list
of `match.end()` offsets of the non-overlapping post boundary matches. -/
def boundGo : Nat → List Char → Nat → Bool → List Nat
  | 0, _, _, _ => []
  | fuel + 1, s, pos, atLS =>
    match (if atLS then matchBoundary s else none) with
    | some n =>
      (pos + n) :: boundGo fuel (s.drop n) (pos + n) (decide ((s.drop (n - 1)).head? = some '\n'))
    | none =>
      match s with
      | [] => []
      | c :: r => boundGo fuel r (pos + 1) (c = '\n')

def findBoundaries (pc : List Char) : List Nat := boundGo pc.length pc 0 true

/-- Python `temp.rfind(pat)`: the largest index at which `pat` occurs. -/
def rfindGo (pat : List Char) : List Char → Nat → Option Nat → Option Nat
  | [], _, acc => acc
  | c :: r, i, acc =>
    rfindGo pat r (i + 1) (if pat.isPrefixOf (c :: r) then some i else acc)

def rfindSub (pat s : List Char) : Option Nat := rfindGo pat s 0 none

/-- The candidate post blocks: for boundary end-offset `st`, the block
runs to the position of the last `"\n**"` before the next boundary's
end-offset (or to that offset when the search fails), and to the end of
the text for the last boundary; each block is stripped. -/
def blocksGo (pc : List Char) : List Nat → List (List Char)
  | [] => []
  | [st] => [pyStrip (pc.drop st)]
  | st :: next :: rest =>
    let e := match rfindSub (S "\n**") (pc.take next) with
      | some idx => idx
      | none => next
    pyStrip ((pc.take e).drop st) :: blocksGo pc (next :: rest)

/-- The non-empty candidate blocks of the Posts section (empty blocks
are skipped by `_extract_posts`). -/
def candidateBlocksFrom (pc : List Char) : List (List Char) :=
  (blocksGo pc (findBoundaries pc)).filter (fun b => b ≠ [])

/-- First index at which `pat` occurs in `s`. -/
def findSubIdx (pat : List Char) : List Char → Option Nat
  | [] => if pat.isPrefixOf ([] : List Char) then some 0 else none
  | c :: r =>
    if pat.isPrefixOf (c :: r) then some 0 else (findSubIdx pat r).map (fun i => i + 1)

/-- Try every start position from the left, first full match wins
(`re.search` driver for an unanchored pattern). -/
def scanFirst {α : Type} (f : List Char → Option α) : List Char → Option α
  | [] => f []
  | c :: r =>
    match f (c :: r) with
    | some x => some x
    | none => scanFirst f r

/-- Match of `:PROPERTIES:\s*\n(.*?)\n:END:` (re.DOTALL) at the current
position: greedy `\s*` then a literal `'\n'` (backtracking over the
newlines of the whitespace run, longest first), then the lazy body up to
the earliest `"\n:END:"`.  Returns the drawer body (group 1). -/
def drawerAt (s : List Char) : Option (List Char) :=
  if (S ":PROPERTIES:").isPrefixOf s then
    let t := s.drop 12
    let runLen := (t.takeWhile isPyWs).length
    ((List.range (runLen + 1)).reverse).findSome? (fun m =>
      if (t.drop m).head? = some '\n' then
        let u := t.drop (m + 1)
        (findSubIdx (S "\n:END:") u).map (fun e => u.take e)
      else none)
  else none

def findDrawer : List Char → Option (List Char) := scanFirst drawerAt

/-- Match of `:END:\s*\n` at the current position; returns the suffix
after the match end (greedy `\s*` then the literal `'\n'`). -/
def endAt (s : List Char) : Option (List Char) :=
  if (S ":END:").isPrefixOf s then
    let t := s.drop 5
    let runLen := (t.takeWhile isPyWs).length
    ((List.range (runLen + 1)).reverse).findSome? (fun m =>
      if (t.drop m).head? = some '\n' then some (t.drop (m + 1)) else none)
  else none

/-- `re.search(r":END:\s*\n", block)`; result is `block[match.end():]`. -/
def findEndNl : List Char → Option (List Char) := scanFirst endAt

/-- Python `"s".split("\n")`. -/
def splitNlGo : List Char → List Char → List (List Char)
  | [], cur => [cur.reverse]
  | c :: r, cur =>
    if c = '\n' then cur.reverse :: splitNlGo r [] else splitNlGo r (c :: cur)

def splitNl (s : List Char) : List (List Char) := splitNlGo s []

/-- `line.find(":", 1)`: index of the second colon of a line that starts
with a colon. -/
def firstColonFrom1 : List Char → Option Nat
  | [] => none
  | _ :: r => (r.findIdx? (fun c => c = ':')).map (fun i => i + 1)

/-- The key a drawer-body line would yield: the trimmed text strictly
between the first and second colon. -/
def propKeyOf (l : List Char) : List Char :=
  match firstColonFrom1 l with
  | some fc => pyStrip ((l.drop 1).take (fc - 1))
  | none => []

/-- One drawer-body line (`_parse_post_block` inner loop): strip it; if
it is non-empty, starts with `':'` and contains at least two `':'`, the
key is the trimmed text between the first and second colon and the value
the trimmed rest; the property is stored only when the key is
non-empty. -/
def parsePropLine (line : List Char) (d : Dict) : Dict :=
  let l := pyStrip line
  if l ≠ [] ∧ l.head? = some ':' ∧ 2 ≤ l.count ':' then
    match firstColonFrom1 l with
    | some fc =>
      let key := pyStrip ((l.drop 1).take (fc - 1))
      let v := pyStrip (l.drop (fc + 1))
      if key ≠ [] then dictSet d key v else d
    | none => d
  else d

/-- `OrgSocialParser._parse_post_block`. -/
def parsePostBlock (block : List Char) : Dict :=
  let props : Dict :=
    match findDrawer block with
    | some body => (splitNl body).foldl (fun d line => parsePropLine line d) []
    | none => []
  match findEndNl block with
  | some rest => dictSet props (S "content") (pyStrip rest)
  | none => dictSet props (S "content") block

/-- `if post and post.get("ID"):` — the record is kept only when the
dict is non-empty and has a non-empty `ID` value. -/
def goodRecord (p : Dict) : Bool :=
  p ≠ [] && (match dictGet p (S "ID") with
             | some v => v ≠ []
             | none => false)

/-- The records of the Posts section text (after the header). -/
def recordsFrom (pc : List Char) : List Dict :=
  (candidateBlocksFrom pc).filterMap (fun b =>
    if goodRecord (parsePostBlock b) then some (parsePostBlock b) else none)

/-- `OrgSocialParser.parse_content` (the returned post list). -/
def parseContent (t : List Char) : List Dict :=
  match findHeader t with
  | none => []
  | some pc => recordsFrom pc

/-!
### Content renderer (`PreviewGenerator._format_content`)
-/

/-- Python regex `\w` (ASCII subset). -/
def isWordChar (c : Char) : Bool := c.isAlphanum || c = '_'

/-- Case-insensitive character comparison (re.IGNORECASE). -/
def ciEq (a b : Char) : Bool := a.toLower = b.toLower

def ciPrefixOf : List Char → List Char → Bool
  | [], _ => true
  | _ :: _, [] => false
  | a :: as, b :: bs => ciEq a b && ciPrefixOf as bs

/-- First index at which `pat` occurs case-insensitively in `s`. -/
def findCiIdx (pat : List Char) : List Char → Option Nat
  | [] => if ciPrefixOf pat [] then some 0 else none
  | c :: r =>
    if ciPrefixOf pat (c :: r) then some 0 else (findCiIdx pat r).map (fun i => i + 1)

/-- One protected code block: detected language, HTML-escaped code and
the placeholder substituted for the block. -/
structure CodeBlock where
  lang : List Char
  code : List Char
  ph : List Char
deriving DecidableEq

/-- Match of `#\+BEGIN_SRC\s+(\w+)?\s*\n(.*?)\n#\+END_SRC`
(re.DOTALL | re.IGNORECASE) at the current position, with the engine's
backtracking order: greedy `\s+` (longest run first), greedy optional
`(\w+)?` (longest word, then absent), greedy `\s*` before the literal
newline, lazy `(.*?)` up to the earliest `"\n#+END_SRC"`.  Returns
(language group, code group, characters consumed). -/
def matchCodeBlockAt (s : List Char) : Option (Option (List Char) × List Char × Nat) :=
  if ciPrefixOf (S "#+BEGIN_SRC") s then
    let t0 := s.drop 11
    let r1 := (t0.takeWhile isPyWs).length
    ((List.range r1).reverse.map (fun i => i + 1)).findSome? (fun k =>
      let t1 := t0.drop k
      let wmax := (t1.takeWhile isWordChar).length
      (((List.range wmax).reverse.map (fun i => (some (i + 1) : Option Nat))) ++ [none]).findSome?
        (fun (wOpt : Option Nat) =>
          let w := wOpt.getD 0
          let t2 := t1.drop w
          let r2 := (t2.takeWhile isPyWs).length
          ((List.range (r2 + 1)).reverse).findSome? (fun m =>
            if (t2.drop m).head? = some '\n' then
              let t3 := t2.drop (m + 1)
              match findCiIdx (S "\n#+END_SRC") t3 with
              | some e =>
                some (wOpt.map (fun ww => t1.take ww), t3.take e,
                      11 + k + w + m + 1 + e + 10)
              | none => none
            else none)))
  else none

/-- HTML escaping of the code text:
`code.replace("&","&amp;").replace("<","&lt;").replace(">","&gt;")`. -/
def escapeHtml (code : List Char) : List Char :=
  pyReplace (pyReplace (pyReplace code (S "&") (S "&amp;")) (S "<") (S "&lt;"))
    (S ">") (S "&gt;")

/-- The `re.sub` loop of the code-block protection step: scan left to
right, replace every match with the next placeholder and record the
block. -/
def protectGo : Nat → List Char → List CodeBlock → List Char × List CodeBlock
  | 0, s, acc => (s, acc)
  | _ + 1, [], acc => ([], acc)
  | fuel + 1, c :: rest, acc =>
    match matchCodeBlockAt (c :: rest) with
    | some (wOpt, code, n) =>
      let lang := wOpt.getD (S "text")
      let ph := S "___CODE_BLOCK_" ++ (Nat.repr acc.length).data ++ S "___"
      let b : CodeBlock := ⟨lang, escapeHtml code, ph⟩
      let pr := protectGo fuel ((c :: rest).drop n) (acc ++ [b])
      (ph ++ pr.1, pr.2)
    | none =>
      let pr := protectGo fuel rest acc
      (c :: pr.1, pr.2)

/-- Code-block protection (`re.sub(code_block_pattern, replace_code_block,
content, flags=re.DOTALL | re.IGNORECASE)` together with the `code_blocks`
list it fills). -/
def protectCodeBlocks (content : List Char) : List Char × List CodeBlock :=
  protectGo content.length content []

/-- The styled block element a placeholder is restored to. -/
def preCodeHtml (b : CodeBlock) : List Char :=
  S "<pre style=\"background-color: #f6f8fa; padding: 16px; border-radius: 6px; overflow-x: auto; margin: 10px 0;\"><code class=\"language-"
    ++ b.lang ++ S "\">" ++ b.code ++ S "</code></pre>"

/-- Match of `<img\s+([^>]*?)src="([^"]+)"([^>]*?)>` at the current
position (lazy group 1 expands over the `src="` occurrences reachable
without a `'>'`). -/
def matchImgAt (s : List Char) : Option (List Char × Nat) :=
  if (S "<img").isPrefixOf s then
    let t0 := s.drop 4
    let wsLen := (t0.takeWhile isPyWs).length
    if wsLen = 0 then none
    else
      let t1 := t0.drop wsLen
      let stop := (t1.takeWhile (fun c => c ≠ '>')).length
      ((List.range (stop + 1)).filter
          (fun i => (S "src=\"").isPrefixOf (t1.drop i))).findSome? (fun i =>
        let g1 := t1.take i
        let t2 := t1.drop (i + 5)
        let q := (t2.takeWhile (fun c => c ≠ '"')).length
        if q = 0 then none
        else if (t2.drop q).head? = some '"' then
          let g2 := t2.take q
          let t3 := t2.drop (q + 1)
          let j := (t3.takeWhile (fun c => c ≠ '>')).length
          if (t3.drop j).head? = some '>' then
            some (S "<img " ++ g1 ++ S "src=\"" ++ g2 ++ S "\"" ++ t3.take j
                    ++ S " style=\"width: 100%; height: auto; border-radius: 8px; margin: 10px 0;\">",
                  4 + wsLen + i + 5 + q + 1 + j + 1)
          else none
        else none)
  else none

/-- Match of `<a[^>]*href="org-social:([^"]+)"[^>]*>@?([^<]+)</a>` at the
current position (greedy `[^>]*` backtracks from the last
`href="org-social:` occurrence in the non-`'>'` run; greedy `@?`
backtracks to the empty match). -/
def matchMentionAt (s : List Char) : Option (List Char × Nat) :=
  if (S "<a").isPrefixOf s then
    let t0 := s.drop 2
    let stop := (t0.takeWhile (fun c => c ≠ '>')).length
    (((List.range (stop + 1)).filter
        (fun i => (S "href=\"org-social:").isPrefixOf (t0.drop i))).reverse).findSome?
      (fun i =>
        let t1 := t0.drop (i + 17)
        let q := (t1.takeWhile (fun c => c ≠ '"')).length
        if q = 0 then none
        else if (t1.drop q).head? = some '"' then
          let t2 := t1.drop (q + 1)
          let r := (t2.takeWhile (fun c => c ≠ '>')).length
          if (t2.drop r).head? = some '>' then
            let t3 := t2.drop (r + 1)
            let tryFrom := fun (t4 : List Char) (extra : Nat) =>
              let p := (t4.takeWhile (fun c => c ≠ '<')).length
              if p = 0 then none
              else if (S "</a>").isPrefixOf (t4.drop p) then
                some (S "<a href=\"#\" style=\"color: #1d9bf0;\">@" ++ t4.take p ++ S "</a>",
                      2 + i + 17 + q + 1 + r + 1 + extra + p + 4)
              else none
            match (if t3.head? = some '@' then tryFrom (t3.drop 1) 1 else none) with
            | some res => some res
            | none => tryFrom t3 0
          else none
        else none)
  else none

/-- Generic `re.sub` driver for a pattern with neither anchors nor
lookbehind: scan left to right, replace each leftmost match and continue
after its end. -/
def subGo (m : List Char → Option (List Char × Nat)) : Nat → List Char → List Char
  | 0, s => s
  | _ + 1, [] => []
  | fuel + 1, c :: rest =>
    match m (c :: rest) with
    | some (rep, n) => rep ++ subGo m fuel ((c :: rest).drop n)
    | none => c :: subGo m fuel rest

def subAll (m : List Char → Option (List Char × Nat)) (s : List Char) : List Char :=
  subGo m s.length s

/-!
### Bare-URL linkification
-/

/-- The character class `[^\s<>"]` of the bare-URL pattern. -/
def urlAllowed (c : Char) : Bool := !(isPyWs c || c = '<' || c = '>' || c = '"')

/-- The literal part `https?://` of the bare-URL pattern: split off the
scheme (the `s?` is greedy). -/
def schemeSplit : List Char → Option (List Char × List Char)
  | 'h' :: 't' :: 't' :: 'p' :: 's' :: ':' :: '/' :: '/' :: rest => some (S "https://", rest)
  | 'h' :: 't' :: 't' :: 'p' :: ':' :: '/' :: '/' :: rest => some (S "http://", rest)
  | _ => none

/-- Match of `https?://[^\s<>"]+` at the current position; returns the
matched URL and the rest. -/
def matchUrlAt (s : List Char) : Option (List Char × List Char) :=
  match schemeSplit s with
  | none => none
  | some (sch, t) =>
    let run := t.takeWhile urlAllowed
    if run = [] then none else some (sch ++ run, t.drop run.length)

/-- The fixed-width negative lookbehinds `(?<!href=")(?<!src=")`,
checked against the reversed original text before the position. -/
def lookbehindBlocked (done : List Char) : Bool :=
  (S "href=\"").reverse.isPrefixOf done || (S "src=\"").reverse.isPrefixOf done

/-- The path portion used for image detection:
`url.split("?")[0].split("#")[0].lower()`. -/
def urlPathOf (url : List Char) : List Char :=
  ((url.takeWhile (fun c => c ≠ '?')).takeWhile (fun c => c ≠ '#')).map Char.toLower

def imageExts : List (List Char) :=
  [S ".jpg", S ".jpeg", S ".png", S ".gif", S ".webp", S ".svg", S ".bmp", S ".ico"]

def isImagePath (p : List Char) : Bool := imageExts.any (fun e => e.isSuffixOf p)

/-- `replace_url`: an image URL becomes a responsive image tag with alt
text "Image", any other URL a styled new-tab anchor showing the URL. -/
def replaceUrl (url : List Char) : List Char :=
  if isImagePath (urlPathOf url) then
    S "<img src=\"" ++ url
      ++ S "\" style=\"width: 100%; height: auto; border-radius: 8px; margin: 10px 0;\" alt=\"Image\">"
  else
    S "<a style=\"color: #1d9bf0;\" target=\"_blank\" href=\"" ++ url ++ S "\">" ++ url ++ S "</a>"

/-- The `re.sub` scan of `linkify_urls`; `done` holds the reversed
original characters before the current position (for the lookbehinds). -/
def linkGo : Nat → List Char → List Char → List Char
  | 0, _, s => s
  | _ + 1, _, [] => []
  | fuel + 1, done, c :: rest =>
    if lookbehindBlocked done then c :: linkGo fuel (c :: done) rest
    else
      match matchUrlAt (c :: rest) with
      | some (url, after) => replaceUrl url ++ linkGo fuel (url.reverse ++ done) after
      | none => c :: linkGo fuel (c :: done) rest

def linkifyUrls (s : List Char) : List Char := linkGo s.length [] s

/-- `PreviewGenerator._format_content`, with the external
org-mode-to-HTML conversion capability as the parameter `conv` (`none`
models the call raising; the surrounding `try/except` then returns the
degraded fallback). -/
def formatContent (conv : List Char → Option (List Char))
    (content mood replyTo : List Char) : List Char :=
  if pyStrip content = [] ∧ mood ≠ [] then
    S "<span style=\"font-size: 20px;\">" ++ mood ++ S "</span>"
  else
    let pr := protectCodeBlocks content
    match conv pr.1 with
    | none =>
      pyReplace (pyReplace content (S "\n") (S "<br>")) (S "  ") (S "&nbsp;&nbsp;")
    | some html0 =>
      let html1 := pr.2.foldl (fun h b => pyReplace h b.ph (preCodeHtml b)) html0
      let html2 := subAll matchImgAt html1
      let html3 := pyReplace html2 (S "<a ")
        (S "<a style=\"color: #1d9bf0;\" target=\"_blank\" ")
      let html4 := subAll matchMentionAt html3
      let html5 := linkifyUrls html4
      if html5 = [] then S "No content" else html5

/-!
### Permalink codec (`parse_post_url`)
-/

/-- `post_url.split("#", 1)` when a `'#'` is present: the text before
the first `'#'` and everything after it. -/
def splitFirstHash : List Char → Option (List Char × List Char)
  | [] => none
  | c :: r =>
    if c = '#' then some ([], r)
    else (splitFirstHash r).map (fun p => (c :: p.1, p.2))

/-- `parse_post_url`: `(None, None)` when the permalink has no `'#'`,
otherwise the split on the first `'#'`. -/
def parsePostUrl (s : List Char) : Option (List Char) × Option (List Char) :=
  match splitFirstHash s with
  | some p => (some p.1, some p.2)
  | none => (none, none)

/-!
### Timestamp formatter (`PreviewGenerator._format_timestamp`)
-/

/-- ASCII digit test for the ISO parser model. -/
def isDig (c : Char) : Bool := 48 ≤ c.toNat && c.toNat ≤ 57

/-- Digit value of an ASCII digit. -/
def dval (c : Char) : Nat := c.toNat - 48

/-- Two-digit value. -/
def tw (a b : Char) : Nat := dval a * 10 + dval b

def leapYear (y : Nat) : Bool := (y % 4 = 0 && y % 100 ≠ 0) || y % 400 = 0

def daysInMonth (y m : Nat) : Nat :=
  if m = 1 ∨ m = 3 ∨ m = 5 ∨ m = 7 ∨ m = 8 ∨ m = 10 ∨ m = 12 then 31
  else if m = 4 ∨ m = 6 ∨ m = 9 ∨ m = 11 then 30
  else if leapYear y then 29
  else 28

/-- A UTC offset `±HH[:MM[:SS]]` or `±HHMM[SS]`; valid when the total is
strictly below 24 hours. -/
def offsetOk : List Char → Bool
  | sign :: o1 :: o2 :: r =>
    (sign = '+' || sign = '-') && isDig o1 && isDig o2 &&
    (match r with
     | [] => tw o1 o2 * 3600 < 86400
     | ':' :: p1 :: p2 :: r2 =>
       isDig p1 && isDig p2 &&
       (match r2 with
        | [] => tw o1 o2 * 3600 + tw p1 p2 * 60 < 86400
        | ':' :: q1 :: q2 :: r3 =>
          isDig q1 && isDig q2 && r3 = [] &&
          tw o1 o2 * 3600 + tw p1 p2 * 60 + tw q1 q2 < 86400
        | _ => false)
     | o3 :: o4 :: r2 =>
       isDig o3 && isDig o4 &&
       (match r2 with
        | [] => tw o1 o2 * 3600 + tw o3 o4 * 60 < 86400
        | o5 :: o6 :: r3 =>
          isDig o5 && isDig o6 && r3 = [] &&
          tw o1 o2 * 3600 + tw o3 o4 * 60 + tw o5 o6 < 86400
        | _ => false)
     | _ => false)
  | _ => false

/-- A fractional part `.d+` or `,d+` (the leading dot or comma already
consumed), optionally followed by a UTC offset. -/
def fracRest (r : List Char) : Bool :=
  let ds := r.takeWhile isDig
  ds ≠ [] && (let rest := r.drop ds.length
              rest = [] || offsetOk rest)

def afterSec : List Char → Bool
  | [] => true
  | '.' :: r => fracRest r
  | ',' :: r => fracRest r
  | r => offsetOk r

def afterMin : List Char → Bool
  | [] => true
  | '.' :: r => fracRest r
  | ',' :: r => fracRest r
  | ':' :: s1 :: s2 :: r => isDig s1 && isDig s2 && tw s1 s2 ≤ 59 && afterSec r
  | r => offsetOk r

def afterHour : List Char → Bool
  | [] => true
  | '.' :: r => fracRest r
  | ',' :: r => fracRest r
  | ':' :: m1 :: m2 :: r => isDig m1 && isDig m2 && tw m1 m2 ≤ 59 && afterMin r
  | r => offsetOk r

def timeOk : List Char → Bool
  | h1 :: h2 :: r => isDig h1 && isDig h2 && tw h1 h2 ≤ 23 && afterHour r
  | _ => false

/-- After the ten date characters: either the end, or one separator
character (any character) followed by a valid time. -/
def timePartOk : List Char → Bool
  | [] => true
  | _ :: r => timeOk r

/-- Modelled from the spec: the external CPython stdlib function
`datetime.fromisoformat` (not part of this repository), on the dashed
ISO-8601 subset `YYYY-MM-DD[<sep>HH[:MM[:SS]][.f+][±HH[:MM[:SS]]|±HHMM[SS]]]`
with field validation (year ≥ 1, month 1–12, day within the month, hour
≤ 23, minute/second ≤ 59, offset total < 24h), as the spec describes:
"Attempts to parse `id` as an ISO-8601 timestamp".  Returns the
year/month/day on success. -/
def fromIso : List Char → Option (Nat × Nat × Nat)
  | y1 :: y2 :: y3 :: y4 :: '-' :: m1 :: m2 :: '-' :: d1 :: d2 :: rest =>
    if isDig y1 && isDig y2 && isDig y3 && isDig y4 && isDig m1 && isDig m2 &&
       isDig d1 && isDig d2 then
      let y := dval y1 * 1000 + dval y2 * 100 + dval y3 * 10 + dval y4
      let mo := tw m1 m2
      let dy := tw d1 d2
      if 1 ≤ y && 1 ≤ mo && mo ≤ 12 && 1 ≤ dy && dy ≤ daysInMonth y mo &&
         timePartOk rest then
        some (y, mo, dy)
      else none
    else none
  | _ => none

/-- An ASCII digit character. -/
def dc (n : Nat) : Char := Char.ofNat (48 + n)

/-- `dt.strftime("%Y-%m-%d")`. -/
def renderDate (y mo dy : Nat) : List Char :=
  [dc (y / 1000 % 10), dc (y / 100 % 10), dc (y / 10 % 10), dc (y % 10), '-',
   dc (mo / 10 % 10), dc (mo % 10), '-', dc (dy / 10 % 10), dc (dy % 10)]

/-- `PreviewGenerator._format_timestamp`: replace every `"Z"` by
`"+00:00"`, attempt the ISO parse, format the date on success and return
the fixed literal `"2024-01-01"` on any failure. -/
def formatTs (ts : List Char) : List Char :=
  match fromIso (pyReplace ts (S "Z") (S "+00:00")) with
  | some (y, mo, dy) => renderDate y mo dy
  | none => S "2024-01-01"

/-!
## Helper lemmas
-/

lemma pyReplaceGo_ne_nil (pat rep : List Char) (hr : rep ≠ []) :
    ∀ (fuel : Nat) (s : List Char), s ≠ [] → pyReplaceGo pat rep fuel s ≠ [] := by
  intro fuel
  induction fuel with
  | zero => intro s hs; exact hs
  | succ n ih =>
    intro s hs
    cases s with
    | nil => exact absurd rfl hs
    | cons c rest =>
      rw [pyReplaceGo]
      by_cases h : pat.isPrefixOf (c :: rest)
      · simp only [h, if_true]
        intro hcontra
        rcases List.append_eq_nil.mp hcontra with ⟨h1, _⟩
        exact hr h1
      · simp [h]

lemma pyReplace_ne_nil (s pat rep : List Char) (hs : s ≠ []) (hr : rep ≠ []) :
    pyReplace s pat rep ≠ [] := by
  cases pat with
  | nil => exact hs
  | cons p ps => exact pyReplaceGo_ne_nil (p :: ps) rep hr s.length s hs

lemma pyReplace_nil_left (pat rep : List Char) : pyReplace [] pat rep = [] := by
  cases pat <;> rfl

lemma dictSet_mem {d : Dict} {k v : List Char} {p : List Char × List Char}
    (h : p ∈ dictSet d k v) : p ∈ d ∨ p.1 = k := by
  unfold dictSet at h
  by_cases hc : d.any (fun p => p.1 == k)
  · simp only [hc, if_true] at h
    rcases List.mem_map.mp h with ⟨q, hq, hpq⟩
    by_cases hk : q.1 == k
    · right; rw [← hpq]; simp [hk]
    · left; rw [← hpq]; simp [hk]; exact hq
  · simp only [hc, if_false] at h
    rcases List.mem_append.mp h with h1 | h1
    · left; exact h1
    · right; simp at h1; rw [h1]

lemma goodRecord_spec {p : Dict} (h : goodRecord p = true) :
    p ≠ [] ∧ ∃ v, dictGet p (S "ID") = some v ∧ v ≠ [] := by
  unfold goodRecord at h
  rcases hg : dictGet p (S "ID") with _ | v
  · rw [hg] at h; simp at h
  · rw [hg] at h
    simp only [Bool.and_eq_true, decide_eq_true_eq] at h
    exact ⟨h.1, v, rfl, h.2⟩

lemma mem_parseContent {t : List Char} {p : Dict} (hp : p ∈ parseContent t) :
    goodRecord p = true := by
  unfold parseContent at hp
  rcases h : findHeader t with _ | pc
  · rw [h] at hp; simp at hp
  · rw [h] at hp
    unfold recordsFrom at hp
    rcases List.mem_filterMap.mp hp with ⟨b, _, hcond⟩
    by_cases hg : goodRecord (parsePostBlock b)
    · rw [if_pos hg] at hcond
      cases hcond
      exact hg
    · rw [if_neg hg] at hcond
      exact absurd hcond (by simp)

/-!
## Claims
-/

/-- C1: every PostRecord appearing in the post list returned by the
parser has a non-empty `ID` value, and a block whose parsed record lacks
a non-empty `ID` contributes no record to the list. -/
theorem C1_posts_have_nonempty_id :
    (∀ (t : List Char) (p : Dict), p ∈ parseContent t →
       p ≠ [] ∧ ∃ v, dictGet p (S "ID") = some v ∧ v ≠ []) ∧
    (∀ (t b : List Char),
       ¬(∃ v, dictGet (parsePostBlock b) (S "ID") = some v ∧ v ≠ []) →
       parsePostBlock b ∉ parseContent t) := by
  constructor
  · intro t p hp
    exact goodRecord_spec (mem_parseContent hp)
  · intro t b hbad hmem
    exact hbad (goodRecord_spec (mem_parseContent hmem)).2

/-- Witness for C1 at a concrete document with one post. -/
theorem C1_witness :
    [(S "ID", S "1"), (S "content", S "hi")] ∈
        parseContent (S "* Posts\n**\n:PROPERTIES:\n:ID: 1\n:END:\nhi") ∧
    ∃ v, dictGet [(S "ID", S "1"), (S "content", S "hi")] (S "ID") = some v ∧ v ≠ [] :=
  ⟨by decide,
   (C1_posts_have_nonempty_id.1 (S "* Posts\n**\n:PROPERTIES:\n:ID: 1\n:END:\nhi")
      [(S "ID", S "1"), (S "content", S "hi")] (by decide)).2⟩

/-- C7: the permalink decoder splits on the first `#`: for a feed URL
without `#` and any post ID, decoding their join returns the pair, and a
permalink without `#` decodes to absent/absent. -/
theorem C7_permalink_roundtrip :
    (∀ a b : List Char, '#' ∉ a → parsePostUrl (a ++ '#' :: b) = (some a, some b)) ∧
    (∀ s : List Char, '#' ∉ s → parsePostUrl s = (none, none)) := by
  constructor
  · intro a b ha
    have h : splitFirstHash (a ++ '#' :: b) = some (a, b) := by
      induction a with
      | nil => simp [splitFirstHash]
      | cons c r ih =>
        have hc : c ≠ '#' := fun hcc => ha (hcc ▸ List.mem_cons_self c r)
        have hr : '#' ∉ r := fun hrr => ha (List.mem_cons_of_mem c hrr)
        simp [splitFirstHash, hc, ih hr]
    simp [parsePostUrl, h]
  · intro s hs
    have h : splitFirstHash s = none := by
      induction s with
      | nil => rfl
      | cons c r ih =>
        have hc : c ≠ '#' := fun hcc => hs (hcc ▸ List.mem_cons_self c r)
        have hr : '#' ∉ r := fun hrr => hs (List.mem_cons_of_mem c hrr)
        simp [splitFirstHash, hc, ih hr]
    simp [parsePostUrl, h]

/-- Witness for C7 at the example permalink of the source docstring. -/
theorem C7_witness :
    parsePostUrl (S "https://foo.org/social.org#2025-02-03T23:05:00+0100") =
      (some (S "https://foo.org/social.org"), some (S "2025-02-03T23:05:00+0100")) := by
  have h := C7_permalink_roundtrip.1 (S "https://foo.org/social.org")
    (S "2025-02-03T23:05:00+0100") (by decide)
  rwa [(by decide : S "https://foo.org/social.org" ++ '#' :: S "2025-02-03T23:05:00+0100" =
    S "https://foo.org/social.org#2025-02-03T23:05:00+0100")] at h

/-- C6: with an empty or whitespace-only body and a non-empty mood, the
renderer returns exactly the fixed styled span wrapping the mood text
and skips every later step. -/
theorem C6_mood_short_circuit (content mood replyTo : List Char)
    (conv : List Char → Option (List Char))
    (hc : pyStrip content = []) (hm : mood ≠ []) :
    formatContent conv content mood replyTo =
      S "<span style=\"font-size: 20px;\">" ++ mood ++ S "</span>" := by
  unfold formatContent
  rw [if_pos ⟨hc, hm⟩]

/-- Witness for C6 at the mood `"🙂"`. -/
theorem C6_witness :
    formatContent (fun _ => none) (S " ") (S "🙂") [] =
      S "<span style=\"font-size: 20px;\">🙂</span>" := by
  rw [C6_mood_short_circuit (S " ") (S "🙂") [] (fun _ => none) (by decide) (by decide)]
  decide

/-- C2: when the conversion call raises (it is only made outside the
mood short-circuit), the renderer returns the raw body with newlines
replaced by `<br>` and each run of two spaces by `&nbsp;&nbsp;`, as a
normal result. -/
theorem C2_conversion_failure_fallback (content mood replyTo : List Char)
    (conv : List Char → Option (List Char))
    (hns : ¬(pyStrip content = [] ∧ mood ≠ []))
    (hfail : conv (protectCodeBlocks content).1 = none) :
    formatContent conv content mood replyTo =
      pyReplace (pyReplace content (S "\n") (S "<br>")) (S "  ") (S "&nbsp;&nbsp;") := by
  unfold formatContent
  rw [if_neg hns]
  simp only [hfail]

/-- Witness for C2 at a concrete body and an always-raising capability. -/
theorem C2_witness :
    formatContent (fun _ => none) (S "a\nb  c") [] [] = S "a<br>b&nbsp;&nbsp;c" := by
  rw [C2_conversion_failure_fallback (S "a\nb  c") [] [] (fun _ => none) (by decide) rfl]
  decide

lemma parsePropLine_keys {line : List Char} {d : Dict}
    (hd : ∀ p ∈ d, p.1 ≠ ([] : List Char)) :
    ∀ p ∈ parsePropLine line d, p.1 ≠ ([] : List Char) := by
  intro p hp
  simp only [parsePropLine] at hp
  split at hp
  · split at hp
    · next fc heq =>
      split at hp
      · next hk =>
        rcases dictSet_mem hp with h | h
        · exact hd p h
        · rw [h]; exact hk
      · exact hd p hp
    · exact hd p hp
  · exact hd p hp

lemma foldl_propLines_keys (lines : List (List Char)) :
    ∀ (d : Dict), (∀ p ∈ d, p.1 ≠ ([] : List Char)) →
      ∀ p ∈ lines.foldl (fun d line => parsePropLine line d) d, p.1 ≠ ([] : List Char) := by
  induction lines with
  | nil => intro d hd p hp; exact hd p hp
  | cons x xs ih =>
    intro d hd p hp
    exact ih (parsePropLine x d) (parsePropLine_keys hd) p hp

lemma parsePostBlock_keys (block : List Char) :
    ∀ p ∈ parsePostBlock block, p.1 ≠ ([] : List Char) := by
  intro p hp
  have hcontent : (S "content") ≠ ([] : List Char) := by decide
  unfold parsePostBlock at hp
  have hprops : ∀ q ∈ (match findDrawer block with
      | some body => (splitNl body).foldl (fun d line => parsePropLine line d) ([] : Dict)
      | none => ([] : Dict)), q.1 ≠ ([] : List Char) := by
    rcases findDrawer block with _ | body
    · simp
    · exact foldl_propLines_keys _ [] (by simp)
  rcases hend : findEndNl block with _ | rest <;> rw [hend] at hp <;>
    rcases dictSet_mem hp with h | h
  · exact hprops p h
  · rw [h]; exact hcontent
  · exact hprops p h
  · rw [h]; exact hcontent

/-- C10: a drawer-body line stores a property only when (after
stripping) it starts with `:`, contains at least two `:` and the trimmed
text between the first and second `:` is non-empty; hence every key of a
parsed record is non-empty, and a `"::value"` line stores nothing. -/
theorem C10_property_keys_nonempty :
    (∀ (line : List Char) (d : Dict), parsePropLine line d ≠ d →
       (pyStrip line).head? = some ':' ∧ 2 ≤ (pyStrip line).count ':' ∧
       propKeyOf (pyStrip line) ≠ []) ∧
    (∀ (block k v : List Char), (k, v) ∈ parsePostBlock block → k ≠ []) ∧
    (∀ d : Dict, parsePropLine (S "::value") d = d) := by
  refine ⟨?_, ?_, ?_⟩
  · intro line d hne
    simp only [parsePropLine] at hne
    split at hne
    · next hcond =>
      split at hne
      · next fc heq =>
        split at hne
        · next hk =>
          refine ⟨hcond.2.1, hcond.2.2, ?_⟩
          unfold propKeyOf
          rw [heq]
          exact hk
        · exact absurd rfl hne
      · exact absurd rfl hne
    · exact absurd rfl hne
  · intro block k v hmem
    exact parsePostBlock_keys block (k, v) hmem
  · intro d; rfl

/-- Witness for C10 at a concrete block: the stored `ID` key is
non-empty. -/
theorem C10_witness :
    (S "ID", S "1") ∈ parsePostBlock (S ":PROPERTIES:\n:ID: 1\n:END:\nhi") ∧
    (S "ID") ≠ ([] : List Char) :=
  ⟨by decide,
   C10_property_keys_nonempty.2.1 (S ":PROPERTIES:\n:ID: 1\n:END:\nhi") (S "ID") (S "1")
     (by decide)⟩

/-- C3 counterexample: with an empty body, an empty mood and a raising
conversion capability, the renderer returns the empty string, so it is
not non-empty in all cases. -/
theorem C3_counterexample :
    formatContent (fun _ => none) [] [] [] = [] := by decide

lemma restore_nil (bs : List CodeBlock) :
    bs.foldl (fun h b => pyReplace h b.ph (preCodeHtml b)) [] = [] := by
  induction bs with
  | nil => rfl
  | cons b bs ih =>
    simp only [List.foldl_cons, pyReplace_nil_left]
    exact ih

/-- C3 (amended): the renderer returns a non-empty string whenever the
body is non-empty or the conversion call returns; in particular a
successful conversion with empty output yields the literal
`"No content"`.  (Only a raising conversion on an empty body with empty
mood produces the empty fallback.) -/
theorem C3_amended_nonempty :
    (∀ (content mood replyTo : List Char) (conv : List Char → Option (List Char)),
        content ≠ [] → formatContent conv content mood replyTo ≠ []) ∧
    (∀ (content mood replyTo : List Char) (conv : List Char → Option (List Char))
        (h : List Char), conv (protectCodeBlocks content).1 = some h →
        formatContent conv content mood replyTo ≠ []) ∧
    (∀ (content mood replyTo : List Char) (conv : List Char → Option (List Char)),
        ¬(pyStrip content = [] ∧ mood ≠ []) →
        conv (protectCodeBlocks content).1 = some [] →
        formatContent conv content mood replyTo = S "No content") := by
  have hspan : ∀ mood : List Char,
      S "<span style=\"font-size: 20px;\">" ++ mood ++ S "</span>" ≠ [] := by
    intro mood h
    have h2 := (List.append_eq_nil.mp h).2
    exact absurd h2 (by decide)
  refine ⟨?_, ?_, ?_⟩
  · intro content mood replyTo conv hc
    unfold formatContent
    by_cases hsc : pyStrip content = [] ∧ mood ≠ []
    · rw [if_pos hsc]; exact hspan mood
    · rw [if_neg hsc]
      rcases hconv : conv (protectCodeBlocks content).1 with _ | html0 <;>
        simp only [hconv]
      · exact pyReplace_ne_nil _ _ _
          (pyReplace_ne_nil _ _ _ hc (by decide)) (by decide)
      · split
        · exact (by decide : S "No content" ≠ [])
        · next hne => exact hne
  · intro content mood replyTo conv h hconv
    unfold formatContent
    by_cases hsc : pyStrip content = [] ∧ mood ≠ []
    · rw [if_pos hsc]; exact hspan mood
    · rw [if_neg hsc]
      simp only [hconv]
      split
      · exact (by decide : S "No content" ≠ [])
      · next hne => exact hne
  · intro content mood replyTo conv hns hconv
    unfold formatContent
    rw [if_neg hns]
    simp only [hconv, restore_nil, subAll, subGo, pyReplace_nil_left, linkifyUrls,
      linkGo, List.length_nil, if_pos rfl, if_true]

/-- Witness for C3 (amended): a non-empty body keeps the result
non-empty even when the conversion raises. -/
theorem C3_witness :
    formatContent (fun _ => none) (S "hi") [] [] ≠ [] :=
  C3_amended_nonempty.1 (S "hi") [] [] (fun _ => none) (by decide)

/-- C4 counterexample: a Posts heading preceded by leading whitespace is
NOT recognized (the same document without the indentation yields a
post). -/
theorem C4_counterexample :
    findHeader (S "  * Posts\n") = none ∧
    parseContent (S "  * Posts\n**\n:PROPERTIES:\n:ID: 1\n:END:\nhi") = [] ∧
    parseContent (S "* Posts\n**\n:PROPERTIES:\n:ID: 1\n:END:\nhi") ≠ [] := by
  refine ⟨by decide, by decide, by decide⟩

lemma matchHeader_posts (rest : List Char) :
    (matchHeader ('*' :: ' ' :: 'P' :: 'o' :: 's' :: 't' :: 's' :: '\n' :: rest)).isSome
      = true := by
  have key : matchHeader ('*' :: ' ' :: 'P' :: 'o' :: 's' :: 't' :: 's' :: '\n' :: rest)
      = (match wsEolSearch rest with
         | some u => some u
         | none => some ('\n' :: rest)) := rfl
  rw [key]
  rcases wsEolSearch rest with _ | u <;> rfl

/-- C4 (amended): the parser recognizes the Posts header only with the
`*` as the first character of a line (a heading preceded by whitespace
is not matched at that line); any line `"* Posts"` with trailing newline
is recognized; post extraction considers only the text after the first
recognized header (and no header means zero posts). -/
theorem C4_amended_header :
    (∀ rest : List Char, (findHeader (S "* Posts\n" ++ rest)).isSome = true) ∧
    (∀ (c : Char) (s : List Char), isPyWs c = true → matchHeader (c :: s) = none) ∧
    (∀ t : List Char, findHeader t = none → parseContent t = []) ∧
    (∀ (t pc : List Char), findHeader t = some pc → parseContent t = recordsFrom pc) := by
  refine ⟨?_, ?_, ?_, ?_⟩
  · intro rest
    have h := matchHeader_posts rest
    have key : findHeader (S "* Posts\n" ++ rest)
        = (match matchHeader ('*' :: ' ' :: 'P' :: 'o' :: 's' :: 't' :: 's' :: '\n' :: rest) with
           | some u => some u
           | none => findHeaderGo (' ' :: 'P' :: 'o' :: 's' :: 't' :: 's' :: '\n' :: rest) false) :=
      rfl
    rcases hm : matchHeader ('*' :: ' ' :: 'P' :: 'o' :: 's' :: 't' :: 's' :: '\n' :: rest)
      with _ | u
    · rw [hm] at h; simp at h
    · rw [key, hm]; rfl
  · intro c s h
    have hc : c ≠ '*' := by
      intro hcc; rw [hcc] at h; exact absurd h (by decide)
    simp only [matchHeader]
    rw [if_neg hc]
  · intro t h
    simp only [parseContent, h]
  · intro t pc h
    simp only [parseContent, h]

/-- Witness for C4 (amended) at concrete documents. -/
theorem C4_witness :
    (findHeader (S "* Posts\nhello")).isSome = true ∧
    parseContent (S "no header") = [] := by
  constructor
  · have h := C4_amended_header.1 (S "hello")
    rwa [(by decide : S "* Posts\n" ++ S "hello" = S "* Posts\nhello")] at h
  · exact C4_amended_header.2.2.1 (S "no header") (by decide)

/-- C5: evaluation of the code-block protection at a fenced block with
no language token.  The claim says the block is matched with language
`"text"`; instead the pattern's `\s+` consumes the newline, so the block
is not matched at all (first conjunct), and when the first code line is
a single word that word is misparsed as the language (second
conjunct). -/
theorem C5_no_language_eval :
    protectCodeBlocks (S "#+BEGIN_SRC\nfoo bar\n#+END_SRC") =
      (S "#+BEGIN_SRC\nfoo bar\n#+END_SRC", []) ∧
    protectCodeBlocks (S "#+BEGIN_SRC\nfoo\nbar\n#+END_SRC") =
      (S "___CODE_BLOCK_0___", [⟨S "foo", S "bar", S "___CODE_BLOCK_0___"⟩]) := by
  refine ⟨by decide, by decide⟩

lemma isDig_bounds {c : Char} (h : isDig c = true) : 48 ≤ c.toNat ∧ c.toNat ≤ 57 := by
  unfold isDig at h
  simpa [Bool.and_eq_true, decide_eq_true_eq] using h

lemma dval_le {c : Char} (h : isDig c = true) : dval c ≤ 9 := by
  have := isDig_bounds h
  unfold dval
  omega

lemma dc_dval {c : Char} (h : isDig c = true) : dc (dval c) = c := by
  have hb := isDig_bounds h
  unfold dc dval
  have : 48 + (c.toNat - 48) = c.toNat := by omega
  rw [this, Char.ofNat_toNat]

lemma fromIso_take10 {s : List Char} {y mo dy : Nat}
    (h : fromIso s = some (y, mo, dy)) : renderDate y mo dy = s.take 10 := by
  rw [fromIso.eq_def] at h
  split at h
  · next y1 y2 y3 y4 m1 m2 d1 d2 rest =>
    simp only [] at h
    split at h
    · next hd =>
      split at h
      · next hr =>
        simp only [Bool.and_eq_true] at hd
        obtain ⟨⟨⟨⟨⟨⟨⟨h1, h2⟩, h3⟩, h4⟩, h5⟩, h6⟩, h7⟩, h8⟩ := hd
        have heq := Option.some.inj h
        have hy : dval y1 * 1000 + dval y2 * 100 + dval y3 * 10 + dval y4 = y :=
          congrArg Prod.fst heq
        have hrest := congrArg Prod.snd heq
        have hmo : tw m1 m2 = mo := congrArg Prod.fst hrest
        have hdy : tw d1 d2 = dy := congrArg Prod.snd hrest
        unfold tw at hmo hdy
        have b1 := dval_le h1
        have b2 := dval_le h2
        have b3 := dval_le h3
        have b4 := dval_le h4
        have b5 := dval_le h5
        have b6 := dval_le h6
        have b7 := dval_le h7
        have b8 := dval_le h8
        have ht : (y1 :: y2 :: y3 :: y4 :: '-' :: m1 :: m2 :: '-' :: d1 :: d2 :: rest).take 10
            = [y1, y2, y3, y4, '-', m1, m2, '-', d1, d2] := rfl
        rw [ht]
        have e1 : y / 1000 % 10 = dval y1 := by omega
        have e2 : y / 100 % 10 = dval y2 := by omega
        have e3 : y / 10 % 10 = dval y3 := by omega
        have e4 : y % 10 = dval y4 := by omega
        have e5 : mo / 10 % 10 = dval m1 := by omega
        have e6 : mo % 10 = dval m2 := by omega
        have e7 : dy / 10 % 10 = dval d1 := by omega
        have e8 : dy % 10 = dval d2 := by omega
        rw [renderDate, e1, e2, e3, e4, e5, e6, e7, e8, dc_dval h1, dc_dval h2,
          dc_dval h3, dc_dval h4, dc_dval h5, dc_dval h6, dc_dval h7, dc_dval h8]
      · exact absurd h (by simp)
    · exact absurd h (by simp)
  · exact absurd h (by simp)

/-- C8: when the id (with `"Z"` replaced by `"+00:00"`) parses as an
ISO-8601 timestamp, `format` returns its `YYYY-MM-DD` date part; on any
parse failure it returns the literal `"2024-01-01"`; in particular
`format("2025-02-03T23:05:00+0100") = "2025-02-03"` and
`format("not-a-date") = "2024-01-01"`. -/
theorem C8_timestamp_format :
    (∀ (ts : List Char) (y mo dy : Nat),
        fromIso (pyReplace ts (S "Z") (S "+00:00")) = some (y, mo, dy) →
        formatTs ts = renderDate y mo dy ∧
        renderDate y mo dy = (pyReplace ts (S "Z") (S "+00:00")).take 10) ∧
    formatTs (S "2025-02-03T23:05:00+0100") = S "2025-02-03" ∧
    formatTs (S "not-a-date") = S "2024-01-01" := by
  refine ⟨?_, by decide, by decide⟩
  intro ts y mo dy h
  constructor
  · unfold formatTs
    rw [h]
  · exact fromIso_take10 h

/-- Witness for C8 at a concrete timestamp with a trailing `Z`. -/
theorem C8_witness :
    fromIso (pyReplace (S "2025-09-20T10:00:00Z") (S "Z") (S "+00:00")) = some (2025, 9, 20) ∧
    formatTs (S "2025-09-20T10:00:00Z") = renderDate 2025 9 20 :=
  ⟨by decide,
   (C8_timestamp_format.1 (S "2025-09-20T10:00:00Z") 2025 9 20 (by decide)).1⟩

lemma linkGo_nil (fuel : Nat) (done : List Char) : linkGo fuel done [] = [] := by
  cases fuel <;> rfl

lemma matchUrlAt_full (sch tail : List Char)
    (hs : sch = S "http://" ∨ sch = S "https://") (ht : tail ≠ [])
    (hall : ∀ c ∈ tail, urlAllowed c = true) :
    matchUrlAt (sch ++ tail) = some (sch ++ tail, []) := by
  have hrun : tail.takeWhile urlAllowed = tail := List.takeWhile_eq_self_iff.mpr hall
  rcases hs with h | h <;> subst h
  · have key : matchUrlAt (S "http://" ++ tail)
        = (if tail.takeWhile urlAllowed = [] then none
           else some (S "http://" ++ tail.takeWhile urlAllowed,
                      tail.drop (tail.takeWhile urlAllowed).length)) := rfl
    rw [key, hrun, if_neg ht, List.drop_length]
  · have key : matchUrlAt (S "https://" ++ tail)
        = (if tail.takeWhile urlAllowed = [] then none
           else some (S "https://" ++ tail.takeWhile urlAllowed,
                      tail.drop (tail.takeWhile urlAllowed).length)) := rfl
    rw [key, hrun, if_neg ht, List.drop_length]

lemma linkify_whole (sch tail : List Char)
    (hs : sch = S "http://" ∨ sch = S "https://") (ht : tail ≠ [])
    (hall : ∀ c ∈ tail, urlAllowed c = true) :
    linkifyUrls (sch ++ tail) = replaceUrl (sch ++ tail) := by
  have hm := matchUrlAt_full sch tail hs ht hall
  have hne : sch ++ tail ≠ [] := by
    intro hcontra
    rcases hs with h | h <;> subst h <;>
      exact absurd (List.append_eq_nil.mp hcontra).1 (by decide)
  cases hcase : sch ++ tail with
  | nil => exact absurd hcase hne
  | cons c rest =>
    rw [hcase] at hm
    unfold linkifyUrls
    rw [List.length_cons]
    have key : linkGo (rest.length + 1) [] (c :: rest)
        = (match matchUrlAt (c :: rest) with
           | some (url, after) => replaceUrl url ++ linkGo rest.length (url.reverse ++ []) after
           | none => c :: linkGo rest.length (c :: []) rest) := rfl
    rw [key, hm]
    simp only [linkGo_nil, List.append_nil]

lemma imagePath_of_png {p : List Char} (h : (S ".png").isSuffixOf p = true) :
    isImagePath p = true :=
  List.any_eq_true.mpr ⟨S ".png", by decide, h⟩

lemma not_imagePath_of_html {p : List Char} (h : (S ".html").isSuffixOf p = true) :
    isImagePath p = false := by
  have hsuf : S ".html" <:+ p := List.isSuffixOf_iff_suffix.mp h
  apply List.any_eq_false.mpr
  intro e he
  simp only [imageExts, List.mem_cons, List.not_mem_nil, or_false] at he
  rcases he with rfl | rfl | rfl | rfl | rfl | rfl | rfl | rfl <;>
  · intro hx
    have hs2 := List.isSuffixOf_iff_suffix.mp hx
    rcases List.suffix_or_suffix_of_suffix hs2 hsuf with hh | hh <;>
      exact absurd hh (by decide)

/-- C9 (amended): in the bare-URL linkification pass, a bare URL whose
path (query and fragment stripped, lowercased) ends in `.png` becomes an
image tag with alt text "Image"; one whose path ends in `.html` becomes
a styled new-tab anchor showing the URL; a URL **immediately preceded**
by `href="` or `src="` is not matched at that position (the scan steps
over it), which leaves a URL standing directly as an attribute value
unmodified — but URLs deeper inside an attribute value can still be
replaced. -/
theorem C9_linkify_classification :
    (∀ sch tail : List Char, (sch = S "http://" ∨ sch = S "https://") → tail ≠ [] →
        (∀ c ∈ tail, urlAllowed c = true) →
        (S ".png").isSuffixOf (urlPathOf (sch ++ tail)) = true →
        linkifyUrls (sch ++ tail) =
          S "<img src=\"" ++ (sch ++ tail) ++
            S "\" style=\"width: 100%; height: auto; border-radius: 8px; margin: 10px 0;\" alt=\"Image\">") ∧
    (∀ sch tail : List Char, (sch = S "http://" ∨ sch = S "https://") → tail ≠ [] →
        (∀ c ∈ tail, urlAllowed c = true) →
        (S ".html").isSuffixOf (urlPathOf (sch ++ tail)) = true →
        linkifyUrls (sch ++ tail) =
          S "<a style=\"color: #1d9bf0;\" target=\"_blank\" href=\"" ++ (sch ++ tail) ++
            S "\">" ++ (sch ++ tail) ++ S "</a>") ∧
    (∀ (fuel : Nat) (done : List Char) (c : Char) (rest : List Char),
        lookbehindBlocked done = true →
        linkGo (fuel + 1) done (c :: rest) = c :: linkGo fuel (c :: done) rest) ∧
    linkifyUrls (S "<a href=\"https://e.com/a.png\">t</a>") =
      S "<a href=\"https://e.com/a.png\">t</a>" := by
  refine ⟨?_, ?_, ?_, by decide⟩
  · intro sch tail hs ht hall hpng
    rw [linkify_whole sch tail hs ht hall]
    unfold replaceUrl
    rw [imagePath_of_png hpng]
    rfl
  · intro sch tail hs ht hall hhtml
    rw [linkify_whole sch tail hs ht hall]
    unfold replaceUrl
    rw [not_imagePath_of_html hhtml]
    rfl
  · intro fuel done c rest h
    simp [linkGo, h]

/-- C9 counterexample: a URL inside an existing `href` attribute value
(but not immediately after `href="`) IS modified by the linkification
pass, refuting the claim that such URLs are left unmodified. -/
theorem C9_counterexample :
    linkifyUrls (S "<a href=\"https://e.com/?u=https://f.com/a.png\">t</a>") ≠
      S "<a href=\"https://e.com/?u=https://f.com/a.png\">t</a>" := by decide

/-- Witness for C9 (amended) at a concrete bare image URL. -/
theorem C9_witness :
    linkifyUrls (S "https://x.io/p.png") =
      S "<img src=\"https://x.io/p.png\" style=\"width: 100%; height: auto; border-radius: 8px; margin: 10px 0;\" alt=\"Image\">" := by
  have h := C9_linkify_classification.1 (S "https://") (S "x.io/p.png")
    (Or.inr rfl) (by decide) (by decide) (by decide)
  rw [(by decide : S "https://" ++ S "x.io/p.png" = S "https://x.io/p.png")] at h
  rw [h]
  decide

end OrgSocial
